import Mathlib

/-!
Verification development for the ranking simulator
(src/ranking_simulator.py).

The core of the program is a restricted arithmetic expression
evaluator `safe_eval_expr` (lines 96-123 of the source), used by
`evaluate_formula` (lines 126-134), followed by a clamp step
(lines 146-147, pandas clip with lower bound 0), a ranking step
(lines 156-162, pandas Series.rank with method "first" and
ascending False) and a rank delta (line 164).

Shallow embedding choices:
- Host numbers (Python float / int and numpy float64 entries) are
  modelled by `PyNum`: a rational together with the special values
  inf, -inf and nan, with IEEE-style propagation rules.  The int
  versus float distinction of Python is not tracked: on the
  arithmetic the program performs the two coincide (true division
  always behaves like float division), the only place where the
  distinction would matter is string repetition, which is outside
  the modelled fragment (see `applyBin`).
- A pandas Series of numbers is a `List PyNum`; binary operations on
  two Series align elementwise, and on Series of unequal length the
  missing positions produce nan (pandas index alignment on default
  RangeIndex).
- Python values reachable in this program are numbers, Series and
  strings (`Value`).  Strings are reachable because ast.Constant
  also matches string literals.  Python bool and None constants
  also pass the Constant branch of the source; they are not needed
  by any claim and are left out of the modelled constant type.
- Python exceptions raised by the evaluator become `EvalError`
  values through `Except`.
- The Python ast module expression nodes relevant to the program
  are modelled by `AstExpr`.  Statements (for example assignments)
  are not expressions: ast.parse with mode eval rejects them with a
  SyntaxError before `safe_eval_expr` runs, so they have no
  representation here.
-/

/-- Idealised host number: a rational, or one of the IEEE special
values inf, -inf, nan.  Signed zero is not modelled. -/
inductive PyNum where
  | fin (q : ℚ)
  | inf
  | negInf
  | nan
deriving DecidableEq, Repr, Inhabited

namespace PyNum

/-- Test for the nan value. -/
def isNan : PyNum → Bool
  | .nan => true
  | _ => false

/-- IEEE-style negation. -/
def neg : PyNum → PyNum
  | .fin q => .fin (-q)
  | .inf => .negInf
  | .negInf => .inf
  | .nan => .nan

/-- IEEE-style addition: nan propagates, inf plus -inf is nan. -/
def add : PyNum → PyNum → PyNum
  | .nan, _ => .nan
  | _, .nan => .nan
  | .fin a, .fin b => .fin (a + b)
  | .inf, .negInf => .nan
  | .negInf, .inf => .nan
  | .inf, _ => .inf
  | _, .inf => .inf
  | .negInf, _ => .negInf
  | _, .negInf => .negInf

/-- IEEE-style subtraction, defined as addition of the negation. -/
def sub (a b : PyNum) : PyNum := a.add b.neg

/-- IEEE-style multiplication: nan propagates, zero times an
infinity is nan. -/
def mul : PyNum → PyNum → PyNum
  | .nan, _ => .nan
  | _, .nan => .nan
  | .fin a, .fin b => .fin (a * b)
  | .fin a, .inf => if 0 < a then .inf else if a < 0 then .negInf else .nan
  | .fin a, .negInf => if 0 < a then .negInf else if a < 0 then .inf else .nan
  | .inf, .fin b => if 0 < b then .inf else if b < 0 then .negInf else .nan
  | .negInf, .fin b => if 0 < b then .negInf else if b < 0 then .inf else .nan
  | .inf, .inf => .inf
  | .inf, .negInf => .negInf
  | .negInf, .inf => .negInf
  | .negInf, .negInf => .inf

/-- Division with numpy float64 semantics, the behaviour of a
division in which a pandas Series takes part: a finite nonzero
value divided by zero gives a signed infinity, zero divided by
zero gives nan, nothing throws. -/
def div : PyNum → PyNum → PyNum
  | .nan, _ => .nan
  | _, .nan => .nan
  | .fin a, .fin b =>
      if b = 0 then (if 0 < a then .inf else if a < 0 then .negInf else .nan)
      else .fin (a / b)
  | .fin _, .inf => .fin 0
  | .fin _, .negInf => .fin 0
  | .inf, .fin b => if b < 0 then .negInf else .inf
  | .negInf, .fin b => if b < 0 then .inf else .negInf
  | .inf, .inf => .nan
  | .inf, .negInf => .nan
  | .negInf, .inf => .nan
  | .negInf, .negInf => .nan

/-- IEEE-style strict comparison: every comparison with nan is
false, -inf is below every finite value, inf above. -/
def ltB : PyNum → PyNum → Bool
  | .nan, _ => false
  | _, .nan => false
  | .fin a, .fin b => decide (a < b)
  | .fin _, .inf => true
  | .fin _, .negInf => false
  | .inf, _ => false
  | .negInf, .negInf => false
  | .negInf, _ => true

/-- Clamp below at zero, the behaviour of pandas clip with lower
bound 0: negative values (including -inf) become 0, nan stays
nan. -/
def clip0 : PyNum → PyNum
  | .fin q => .fin (max q 0)
  | .inf => .inf
  | .negInf => .fin 0
  | .nan => .nan

end PyNum

/-- A python value reachable inside `safe_eval_expr` in this
program: a scalar number, a pandas Series of numbers, or a string
(strings are reachable because ast.Constant also matches string
literals). -/
inductive Value where
  | num (x : PyNum)
  | series (v : List PyNum)
  | str (s : String)
deriving DecidableEq, Repr

/-- The failures `safe_eval_expr` can raise, one constructor per
raise site plus the two host-raised errors. -/
inductive EvalError where
  /-- ValueError, source line 103: Unknown variable. -/
  | unknownVariable (name : String)
  /-- TypeError, source line 108: Operator not allowed. -/
  | operatorNotAllowed
  /-- TypeError, source line 117: Unary operator not allowed. -/
  | unaryOperatorNotAllowed
  /-- TypeError, source line 120: Unsupported expression. -/
  | unsupportedExpression
  /-- ZeroDivisionError raised by the host on scalar division by
  zero. -/
  | zeroDivision
  /-- TypeError raised by the host on an operation between
  incompatible operand types. -/
  | typeError
deriving DecidableEq, Repr

/-- Python ast binary operator kinds. -/
inductive PyBinOp where
  | add | sub | mult | div
  | mod | pow | floorDiv | matMult
  | lshift | rshift | bitOr | bitXor | bitAnd
deriving DecidableEq, Repr

/-- Python ast unary operator kinds. -/
inductive PyUnaryOp where
  | usub | uadd | notOp | invert
deriving DecidableEq, Repr

/-- Constant payloads the model tracks (numbers and strings). -/
inductive PyConst where
  | num (x : PyNum)
  | str (s : String)
deriving DecidableEq, Repr

/-- The fragment of the Python expression AST relevant to the
program: the four node kinds the evaluator accepts plus the node
kinds a formula could contain that it must reject (calls,
attribute access, comparisons, boolean operations).  Payloads of
rejected nodes are carried but never inspected, as in the
source. -/
inductive AstExpr where
  | constant (c : PyConst)
  | name (id : String)
  | binOp (op : PyBinOp) (left right : AstExpr)
  | unaryOp (op : PyUnaryOp) (operand : AstExpr)
  | call (func : AstExpr) (args : List AstExpr)
  | attribute (value : AstExpr) (attr : String)
  | compare (left : AstExpr) (comparators : List AstExpr)
  | boolOp (values : List AstExpr)

/-- The four arithmetic operations of ALLOWED_OPERATORS
(source lines 89-94). -/
inductive ArithOp where
  | add | sub | mul | div
deriving DecidableEq, Repr

/-- Membership test of ALLOWED_OPERATORS: the dictionary maps
ast.Add, ast.Sub, ast.Mult, ast.Div to the host operators; every
other operator kind is absent. -/
def allowedOp : PyBinOp → Option ArithOp
  | .add => some .add
  | .sub => some .sub
  | .mult => some .mul
  | .div => some .div
  | _ => none

/-- Elementwise (numpy) semantics of an allowed operation on two
numbers: this is the semantics applied inside a Series operation,
where division by zero yields inf or nan and never throws. -/
def numOp : ArithOp → PyNum → PyNum → PyNum
  | .add => PyNum.add
  | .sub => PyNum.sub
  | .mul => PyNum.mul
  | .div => PyNum.div

/-- Scalar (plain Python) semantics of an allowed operation: the
same as `numOp` except that division raises ZeroDivisionError when
the divisor is exactly zero. -/
def scalarNumOp : ArithOp → PyNum → PyNum → Except EvalError PyNum
  | .add, a, b => .ok (PyNum.add a b)
  | .sub, a, b => .ok (PyNum.sub a b)
  | .mul, a, b => .ok (PyNum.mul a b)
  | .div, a, b => if b = .fin 0 then .error .zeroDivision else .ok (PyNum.div a b)

/-- Elementwise combination of two Series.  pandas aligns on the
index; with the default RangeIndex, positions present in only one
operand produce nan. -/
def zipWithPad (f : PyNum → PyNum → PyNum) : List PyNum → List PyNum → List PyNum
  | [], bs => bs.map (fun _ => PyNum.nan)
  | _ :: as, [] => PyNum.nan :: zipWithPad f as []
  | a :: as, b :: bs => f a b :: zipWithPad f as bs

/-- Application of an allowed binary operator to two evaluated
operands, following the host dispatch: scalar with scalar uses
plain Python semantics, any combination involving a Series
broadcasts with numpy semantics, string with string concatenates
under add, every other combination raises TypeError.  (Python
string repetition, str times int, is outside the modelled
fragment: the model does not track the int versus float
distinction it depends on, and no formula of interest reaches
it.) -/
def applyBin (o : ArithOp) : Value → Value → Except EvalError Value
  | .num a, .num b => (scalarNumOp o a b).map .num
  | .num a, .series l => .ok (.series (l.map (fun b => numOp o a b)))
  | .series l, .num b => .ok (.series (l.map (fun a => numOp o a b)))
  | .series l, .series m => .ok (.series (zipWithPad (numOp o) l m))
  | .str s, .str t => if o = .add then .ok (.str (s ++ t)) else .error .typeError
  | _, _ => .error .typeError

/-- Unary minus on an evaluated operand: numbers negate, Series
negate elementwise, strings raise TypeError. -/
def applyNeg : Value → Except EvalError Value
  | .num x => .ok (.num x.neg)
  | .series l => .ok (.series (l.map PyNum.neg))
  | .str _ => .error .typeError

/-- The value of a constant node: node.value, returned as is
(source lines 98-99). -/
def constValue : PyConst → Value
  | .num x => .num x
  | .str s => .str s

/-- Shallow embedding of `safe_eval_expr` (source lines 96-123):
the inner tree walk `_eval` over the parsed expression body.  The
bindings dictionary becomes an association list looked up by
name. -/
def safe_eval_expr (vars : List (String × Value)) :
    AstExpr → Except EvalError Value
  | .constant c => .ok (constValue c)
  | .name id =>
      match vars.lookup id with
      | none => .error (.unknownVariable id)
      | some v => .ok v
  | .binOp op l r =>
      match allowedOp op with
      | none => .error .operatorNotAllowed
      | some o => do
          let a ← safe_eval_expr vars l
          let b ← safe_eval_expr vars r
          applyBin o a b
  | .unaryOp uop x =>
      match uop with
      | .usub => do
          let v ← safe_eval_expr vars x
          applyNeg v
      | _ => .error .unaryOperatorNotAllowed
  | .call _ _ => .error .unsupportedExpression
  | .attribute _ _ => .error .unsupportedExpression
  | .compare _ _ => .error .unsupportedExpression
  | .boolOp _ => .error .unsupportedExpression

/-- A node outside the whitelist of the five permitted kinds occurs
somewhere in the expression: a call, an attribute access, a
comparison, a boolean operation, a binary operator absent from
ALLOWED_OPERATORS, or a unary operator other than USub. -/
def containsDisallowed : AstExpr → Bool
  | .constant _ => false
  | .name _ => false
  | .binOp op l r =>
      (allowedOp op).isNone || containsDisallowed l || containsDisallowed r
  | .unaryOp uop x =>
      match uop with
      | .usub => containsDisallowed x
      | _ => true
  | .call _ _ => true
  | .attribute _ _ => true
  | .compare _ _ => true
  | .boolOp _ => true

/-- The three numeric columns of the filtered dataframe that
`evaluate_formula` binds (source lines 126-134). -/
structure Table where
  ranking_score : List PyNum
  asp_boost : List PyNum
  pop_boost : List PyNum
deriving DecidableEq, Repr

/-- Number of rows of the dataframe. -/
def Table.nrows (t : Table) : ℕ := t.ranking_score.length

/-- Shallow embedding of `evaluate_formula` (source lines 126-134):
calls safe_eval_expr with the three columns bound by name. -/
def evaluate_formula (t : Table) (e : AstExpr) : Except EvalError Value :=
  safe_eval_expr
    [("ranking_score", .series t.ranking_score),
     ("asp_boost", .series t.asp_boost),
     ("pop_boost", .series t.pop_boost)] e

/-- Assignment of an evaluation result into a dataframe column of n
rows (source lines 142-143): a scalar broadcasts to every row, a
Series aligns on the RangeIndex (positions it misses become nan, a
longer Series is cut at n); assigning a string column makes the
subsequent clip raise TypeError, surfaced here. -/
def toColumn (n : ℕ) : Value → Except EvalError (List PyNum)
  | .num x => .ok (List.replicate n x)
  | .series l => .ok (l.takeD n .nan)
  | .str _ => .error .typeError

/-- The clamp guardrail (source lines 146-147): pandas clip with
lower bound 0, applied elementwise. -/
def clip_lower0 (l : List PyNum) : List PyNum := l.map PyNum.clip0

/-- Position j beats position i in the descending first-stability
order used by pandas Series.rank(method first, ascending False):
the value at j is not nan and is either strictly greater than the
value at i, or equal to it with j appearing earlier. -/
def beatsIdx (s : List PyNum) (j i : Fin s.length) : Bool :=
  !(s.get j).isNan &&
    ((s.get i).ltB (s.get j) || (s.get j == s.get i && decide (j.1 < i.1)))

/-- The numeric rank pandas assigns to a non-nan position: one plus
the number of positions that beat it. -/
def rankNat (s : List PyNum) (i : Fin s.length) : ℕ :=
  1 + (Finset.univ.filter (fun j : Fin s.length => beatsIdx s j i = true)).card

/-- Shallow embedding of Series.rank(method first, ascending False)
with the default na_option keep (source lines 156-162): nan
positions receive rank nan, every other position receives its
numeric first-stability descending rank. -/
def rank_first_desc (s : List PyNum) : List PyNum :=
  List.ofFn (fun i : Fin s.length =>
    if (s.get i).isNan then PyNum.nan else PyNum.fin (rankNat s i))

/-- The columns the simulation adds to the dataframe
(source lines 139-164). -/
structure SimResult where
  score_a : List PyNum
  score_b : List PyNum
  rank_a : List PyNum
  rank_b : List PyNum
  rank_delta : List PyNum
deriving DecidableEq, Repr

/-- The compute-scores and rank-computation blocks of the source
(lines 139-164): evaluate both formulas, materialise them as
columns, clamp both at zero, rank both clamped columns and take
the elementwise difference rank_b - rank_a. -/
def simulate (t : Table) (fa fb : AstExpr) : Except EvalError SimResult := do
  let va ← evaluate_formula t fa
  let vb ← evaluate_formula t fb
  let ca ← toColumn t.nrows va
  let cb ← toColumn t.nrows vb
  let sa := clip_lower0 ca
  let sb := clip_lower0 cb
  let ra := rank_first_desc sa
  let rb := rank_first_desc sb
  .ok ⟨sa, sb, ra, rb, zipWithPad PyNum.sub rb ra⟩

/-- The unclamped score column a formula produces: the result of
safe_eval_expr materialised over the n rows, before the clamp. -/
def formulaColumn (t : Table) (e : AstExpr) : Except EvalError (List PyNum) :=
  (evaluate_formula t e).bind (toColumn t.nrows)

/-- Decidable equality on Except results, for evaluating the
embedding at concrete inputs. -/
instance {ε α : Type} [DecidableEq ε] [DecidableEq α] :
    DecidableEq (Except ε α) := fun x y =>
  match x, y with
  | .ok a, .ok b =>
      if h : a = b then .isTrue (h ▸ rfl)
      else .isFalse (fun he => h (Except.ok.inj he))
  | .error a, .error b =>
      if h : a = b then .isTrue (h ▸ rfl)
      else .isFalse (fun he => h (Except.error.inj he))
  | .ok _, .error _ => .isFalse (fun h => Except.noConfusion h)
  | .error _, .ok _ => .isFalse (fun h => Except.noConfusion h)

/-- Value of a decimal digit character. -/
def digitVal (c : Char) : ℕ := c.toNat - 48

/-- Natural number denoted by a list of decimal digits. -/
def digitsToNat (ds : List Char) : ℕ :=
  ds.foldl (fun n c => 10 * n + digitVal c) 0

/-- Tokens of the formula grammar of the spec (section 4.1). -/
inductive Tok where
  | num (q : ℚ)
  | ident (s : String)
  | plus | minus | star | slash | lparen | rparen
deriving DecidableEq, Repr

/-- Modelled from the spec: the source delegates lexing to the host
parser (Python ast.parse in eval mode, standard library, not part
of src), so the token grammar of section 4.1 is modelled here:
decimal integer and float literals, identifier names (letters,
digits, underscore, not starting with a digit), the four operators
and parentheses, blanks skipped.  Fuel-driven so the recursion is
structural. -/
def tokenizeF : ℕ → List Char → Except String (List Tok)
  | 0, _ => .error "out of fuel"
  | _, [] => .ok []
  | fuel+1, c :: cs =>
      if c = ' ' then tokenizeF fuel cs
      else if c = '+' then (tokenizeF fuel cs).map (fun ts => .plus :: ts)
      else if c = '-' then (tokenizeF fuel cs).map (fun ts => .minus :: ts)
      else if c = '*' then (tokenizeF fuel cs).map (fun ts => .star :: ts)
      else if c = '/' then (tokenizeF fuel cs).map (fun ts => .slash :: ts)
      else if c = '(' then (tokenizeF fuel cs).map (fun ts => .lparen :: ts)
      else if c = ')' then (tokenizeF fuel cs).map (fun ts => .rparen :: ts)
      else if c.isDigit then
        let ds := (c :: cs).takeWhile Char.isDigit
        let rest := (c :: cs).dropWhile Char.isDigit
        match rest with
        | '.' :: rest1 =>
            let fs := rest1.takeWhile Char.isDigit
            let rest2 := rest1.dropWhile Char.isDigit
            if fs = [] then .error "malformed number"
            else (tokenizeF fuel rest2).map (fun ts =>
              .num ((digitsToNat ds : ℚ)
                + (digitsToNat fs : ℚ) / (10 : ℚ) ^ fs.length) :: ts)
        | _ => (tokenizeF fuel rest).map (fun ts =>
            .num (digitsToNat ds : ℚ) :: ts)
      else if c.isAlpha || c = '_' then
        let nm := (c :: cs).takeWhile (fun d => d.isAlphanum || d = '_')
        let rest := (c :: cs).dropWhile (fun d => d.isAlphanum || d = '_')
        (tokenizeF fuel rest).map (fun ts => .ident (String.mk nm) :: ts)
      else .error "unexpected character"

mutual

/-- Modelled from the spec: grammar rule
expr := term ((plus or minus) term)*, left associative. -/
def parseExprF : ℕ → List Tok → Except String (AstExpr × List Tok)
  | 0, _ => .error "out of fuel"
  | fuel+1, ts => do
      let (t, ts1) ← parseTermF fuel ts
      parseExprTail fuel t ts1

/-- Modelled from the spec: the iterated tail of the expr rule. -/
def parseExprTail : ℕ → AstExpr → List Tok → Except String (AstExpr × List Tok)
  | 0, _, _ => .error "out of fuel"
  | fuel+1, acc, .plus :: ts => do
      let (t, ts1) ← parseTermF fuel ts
      parseExprTail fuel (.binOp .add acc t) ts1
  | fuel+1, acc, .minus :: ts => do
      let (t, ts1) ← parseTermF fuel ts
      parseExprTail fuel (.binOp .sub acc t) ts1
  | _+1, acc, ts => .ok (acc, ts)

/-- Modelled from the spec: grammar rule
term := factor ((star or slash) factor)*, left associative. -/
def parseTermF : ℕ → List Tok → Except String (AstExpr × List Tok)
  | 0, _ => .error "out of fuel"
  | fuel+1, ts => do
      let (f, ts1) ← parseFactorF fuel ts
      parseTermTail fuel f ts1

/-- Modelled from the spec: the iterated tail of the term rule. -/
def parseTermTail : ℕ → AstExpr → List Tok → Except String (AstExpr × List Tok)
  | 0, _, _ => .error "out of fuel"
  | fuel+1, acc, .star :: ts => do
      let (f, ts1) ← parseFactorF fuel ts
      parseTermTail fuel (.binOp .mult acc f) ts1
  | fuel+1, acc, .slash :: ts => do
      let (f, ts1) ← parseFactorF fuel ts
      parseTermTail fuel (.binOp .div acc f) ts1
  | _+1, acc, ts => .ok (acc, ts)

/-- Modelled from the spec: grammar rule
factor := minus factor, or NUMBER, or NAME, or parenthesized expr;
unary minus binds tighter than the binary operators. -/
def parseFactorF : ℕ → List Tok → Except String (AstExpr × List Tok)
  | 0, _ => .error "out of fuel"
  | fuel+1, .minus :: ts => do
      let (f, ts1) ← parseFactorF fuel ts
      .ok (.unaryOp .usub f, ts1)
  | _+1, .num q :: ts => .ok (.constant (.num (.fin q)), ts)
  | _+1, .ident s :: ts => .ok (.name s, ts)
  | fuel+1, .lparen :: ts => do
      let (e, ts1) ← parseExprF fuel ts
      match ts1 with
      | .rparen :: ts2 => .ok (e, ts2)
      | _ => .error "expected closing paren"
  | _+1, _ => .error "unexpected token"

end

/-- Modelled from the spec: parse a formula string with the grammar
of section 4.1, demanding that all input is consumed. -/
def parseFormula (s : String) : Except String AstExpr := do
  let ts ← tokenizeF (s.length + 1) s.toList
  let (e, rest) ← parseExprF (4 * ts.length + 4) ts
  match rest with
  | [] => .ok e
  | _ => .error "trailing input"

/-- A heap of pandas Series objects: the mutable store the Python
evaluation works over, one cell per Series object.  References are
cell indices. -/
structure Heap where
  cells : List (List PyNum)
deriving DecidableEq, Repr

/-- Number of allocated cells. -/
def Heap.size (h : Heap) : ℕ := h.cells.length

/-- Contents of a cell (empty for a dangling reference, which the
valid-environment invariant rules out). -/
def Heap.getCell (h : Heap) (r : ℕ) : List PyNum := h.cells.getD r []

/-- Allocation of a fresh Series object. -/
def Heap.alloc (h : Heap) (l : List PyNum) : Heap := ⟨h.cells ++ [l]⟩

/-- The heap grew by allocation only: the old cells are an initial
segment of the new ones, so every old reference still sees the
same contents. -/
def Heap.Extends (h' h : Heap) : Prop := ∃ ext, h'.cells = h.cells ++ ext

/-- A runtime value in the heap view: a scalar, a reference to a
Series cell, or a string. -/
inductive ValueH where
  | num (x : PyNum)
  | ref (r : ℕ)
  | str (s : String)
deriving DecidableEq, Repr

/-- Read a heap value back as a plain value. -/
def derefV (h : Heap) : ValueH → Value
  | .num x => .num x
  | .ref r => .series (h.getCell r)
  | .str s => .str s

/-- A heap value does not dangle. -/
def validV (h : Heap) : ValueH → Bool
  | .ref r => decide (r < h.size)
  | _ => true

/-- A binding environment maps names to Series cells; validity
means no binding dangles. -/
def validEnv (h : Heap) (env : List (String × ℕ)) : Bool :=
  env.all (fun p => decide (p.2 < h.size))

/-- The plain bindings a heap environment denotes. -/
def derefEnv (h : Heap) (env : List (String × ℕ)) : List (String × Value) :=
  env.map (fun p => (p.1, Value.series (h.getCell p.2)))

/-- Materialise an operation result in the heap: a fresh Series
gets a fresh cell (the host operators allocate a new Series and
never write an existing one), scalars and strings are immediate. -/
def allocResult (h : Heap) : Value → Heap × ValueH
  | .num x => (h, .num x)
  | .series l => (h.alloc l, .ref h.size)
  | .str s => (h, .str s)

/-- Heap view of an allowed binary operation: read both operands,
compute as `applyBin`, materialise the result. -/
def applyBinH (h : Heap) (o : ArithOp) (a b : ValueH) :
    Except EvalError (Heap × ValueH) :=
  (applyBin o (derefV h a) (derefV h b)).map (allocResult h)

/-- Heap view of unary minus. -/
def applyNegH (h : Heap) (a : ValueH) : Except EvalError (Heap × ValueH) :=
  (applyNeg (derefV h a)).map (allocResult h)

/-- Heap-passing view of `safe_eval_expr`: the same tree walk as
the source, made to thread the store of Series objects explicitly
so that freedom from side effects becomes a statement about the
store.  The walk never writes an existing cell: reads return the
existing reference, operations allocate. -/
def safe_eval_expr_heap (env : List (String × ℕ)) :
    AstExpr → Heap → Except EvalError (Heap × ValueH)
  | .constant c, h =>
      .ok (h, match c with | .num x => .num x | .str s => .str s)
  | .name id, h =>
      match env.lookup id with
      | none => .error (.unknownVariable id)
      | some r => .ok (h, .ref r)
  | .binOp op l r, h =>
      match allowedOp op with
      | none => .error .operatorNotAllowed
      | some o => do
          let (h1, a) ← safe_eval_expr_heap env l h
          let (h2, b) ← safe_eval_expr_heap env r h1
          applyBinH h2 o a b
  | .unaryOp uop x, h =>
      match uop with
      | .usub => do
          let (h1, v) ← safe_eval_expr_heap env x h
          applyNegH h1 v
      | _ => .error .unaryOperatorNotAllowed
  | .call _ _, _ => .error .unsupportedExpression
  | .attribute _ _, _ => .error .unsupportedExpression
  | .compare _ _, _ => .error .unsupportedExpression
  | .boolOp _, _ => .error .unsupportedExpression

/-- The tree walk aborts with an error on every expression that
contains a node outside the whitelist: the offending node raises
when reached, and an earlier failure only replaces the error, never
the failure itself. -/
theorem eval_error_of_disallowed (env : List (String × Value)) :
    (e : AstExpr) → containsDisallowed e = true →
    ∃ err, safe_eval_expr env e = .error err
  | .binOp op l r, h => by
      cases hop : allowedOp op with
      | none =>
          exact ⟨.operatorNotAllowed, by simp [safe_eval_expr, hop]⟩
      | some o =>
          simp only [containsDisallowed, hop, Option.isNone_some,
            Bool.false_or, Bool.or_eq_true] at h
          cases hl : safe_eval_expr env l with
          | error e1 =>
              exact ⟨e1, by simp [safe_eval_expr, hop, hl, Except.bind, Bind.bind]⟩
          | ok a =>
              have hr : containsDisallowed r = true := by
                rcases h with h | h
                · rcases eval_error_of_disallowed env l h with ⟨err, herr⟩
                  rw [hl] at herr; cases herr
                · exact h
              rcases eval_error_of_disallowed env r hr with ⟨e2, he2⟩
              exact ⟨e2, by simp [safe_eval_expr, hop, hl, he2, Except.bind, Bind.bind]⟩
  | .unaryOp uop x, h => by
      cases uop with
      | usub =>
          simp only [containsDisallowed] at h
          rcases eval_error_of_disallowed env x h with ⟨e1, he1⟩
          exact ⟨e1, by simp [safe_eval_expr, he1, Except.bind, Bind.bind]⟩
      | uadd => exact ⟨.unaryOperatorNotAllowed, by simp [safe_eval_expr]⟩
      | notOp => exact ⟨.unaryOperatorNotAllowed, by simp [safe_eval_expr]⟩
      | invert => exact ⟨.unaryOperatorNotAllowed, by simp [safe_eval_expr]⟩
  | .call _ _, _ => ⟨.unsupportedExpression, rfl⟩
  | .attribute _ _, _ => ⟨.unsupportedExpression, rfl⟩
  | .compare _ _, _ => ⟨.unsupportedExpression, rfl⟩
  | .boolOp _, _ => ⟨.unsupportedExpression, rfl⟩

/-- C1: for every expression containing a function call, attribute
access, comparison, boolean or bitwise operator, or any other node
outside the whitelist of the five permitted kinds (Constant, Name,
BinOp with Add/Sub/Mult/Div, UnaryOp with USub), evaluation by
safe_eval_expr fails with an error and never silently succeeds;
moreover each disallowed node kind itself always raises the
corresponding unsupported-construct error, before any of its
children is evaluated.  (Assignments are statements, already
rejected with a SyntaxError by ast.parse in eval mode, and hence
have no expression node at all.) -/
theorem C1_whitelist_blocks_disallowed_constructs
    (env : List (String × Value)) (e : AstExpr)
    (h : containsDisallowed e = true) :
    (∃ err, safe_eval_expr env e = .error err) ∧
    (∀ f args, safe_eval_expr env (.call f args) = .error .unsupportedExpression) ∧
    (∀ v a, safe_eval_expr env (.attribute v a) = .error .unsupportedExpression) ∧
    (∀ l cs, safe_eval_expr env (.compare l cs) = .error .unsupportedExpression) ∧
    (∀ vs, safe_eval_expr env (.boolOp vs) = .error .unsupportedExpression) ∧
    (∀ op l r, allowedOp op = none →
      safe_eval_expr env (.binOp op l r) = .error .operatorNotAllowed) ∧
    (∀ uop x, uop ≠ PyUnaryOp.usub →
      safe_eval_expr env (.unaryOp uop x) = .error .unaryOperatorNotAllowed) := by
  refine ⟨eval_error_of_disallowed env e h,
    fun f args => rfl, fun v a => rfl, fun l cs => rfl, fun vs => rfl,
    fun op l r hop => by simp [safe_eval_expr, hop],
    fun uop x huop => ?_⟩
  cases uop with
  | usub => exact absurd rfl huop
  | uadd => rfl
  | notOp => rfl
  | invert => rfl

/-- Witness for C1 at a concrete input: a call node (a formula such
as system("...")) is rejected. -/
theorem C1_whitelist_blocks_disallowed_constructs_witness :
    containsDisallowed (.call (.name "system") [.constant (.str "x")]) = true ∧
    (∃ err, safe_eval_expr []
      (.call (.name "system") [.constant (.str "x")]) = .error err) :=
  ⟨rfl, (C1_whitelist_blocks_disallowed_constructs []
    (.call (.name "system") [.constant (.str "x")]) rfl).1⟩

/-- C2 counterexample: a division between two numeric literals with
zero divisor, the formula 1 / 0, makes safe_eval_expr throw
ZeroDivisionError (plain Python scalar division), refuting the
claim that every division by zero yields a non-error value. -/
theorem C2_counterexample_scalar_division_throws :
    safe_eval_expr []
      (.binOp .div (.constant (.num (.fin 1))) (.constant (.num (.fin 0))))
      = .error .zeroDivision := rfl

/-- C2 amended: every division in which a Series takes part follows
float semantics and never throws; in particular 1 / x with x bound
to a vector holding 0 evaluates to a vector holding inf at that
position.  Only a division between two scalars with zero divisor
throws (see the counterexample). -/
theorem C2_vector_division_by_zero_never_throws
    (x : List PyNum) (i : ℕ) (hx : x.get? i = some (.fin 0)) :
    (∃ l, safe_eval_expr [("x", .series x)]
        (.binOp .div (.constant (.num (.fin 1))) (.name "x"))
        = .ok (.series l) ∧ l.get? i = some PyNum.inf) ∧
    (∀ o a l, ∃ r, applyBin o (.num a) (.series l) = .ok (.series r)) ∧
    (∀ o l b, ∃ r, applyBin o (.series l) (.num b) = .ok (.series r)) ∧
    (∀ o l m, ∃ r, applyBin o (.series l) (.series m) = .ok (.series r)) := by
  refine ⟨⟨x.map (fun b => numOp .div (.fin 1) b), rfl, ?_⟩,
    fun o a l => ⟨_, rfl⟩, fun o l b => ⟨_, rfl⟩, fun o l m => ⟨_, rfl⟩⟩
  rw [List.get?_eq_getElem?] at hx ⊢
  rw [List.getElem?_map, hx]
  decide

/-- Witness for C2 amended at the concrete input of the spec,
bindings x bound to the vector [0]. -/
theorem C2_vector_division_by_zero_never_throws_witness :
    ([PyNum.fin 0].get? 0 = some (PyNum.fin 0)) ∧
    (∃ l, safe_eval_expr [("x", .series [PyNum.fin 0])]
        (.binOp .div (.constant (.num (.fin 1))) (.name "x"))
        = .ok (.series l) ∧ l.get? 0 = some PyNum.inf) :=
  ⟨rfl, (C2_vector_division_by_zero_never_throws [PyNum.fin 0] 0 rfl).1⟩

/-- C3: the code accepts a string literal: the Constant branch of
safe_eval_expr (annotated numbers in the source) matches every
ast.Constant, so the formula consisting of the string literal abc
evaluates successfully to that string instead of failing with an
unsupported-construct error. -/
theorem C3_string_literal_silently_accepted :
    safe_eval_expr [] (.constant (.str "abc")) = .ok (.str "abc") := rfl

/-- C4 counterexample: a number literal evaluated against bindings
whose vectors have length 3 returns the bare scalar, not the
length-3 broadcast vector the claim states. -/
theorem C4_counterexample_literal_stays_scalar :
    safe_eval_expr
      [("ranking_score", .series [PyNum.fin 10, PyNum.fin 20, PyNum.fin 30])]
      (.constant (.num (.fin 5))) = .ok (.num (.fin 5)) ∧
    Value.num (.fin 5) ≠ .series (List.replicate 3 (.fin 5)) :=
  ⟨rfl, by decide⟩

/-- C4 amended: the evaluator returns a number literal as a bare
scalar; the broadcast to a length-N vector happens afterwards,
when the result is assigned into the N-row dataframe column. -/
theorem C4_literal_broadcast_at_assignment (t : Table) (v : PyNum) :
    evaluate_formula t (.constant (.num v)) = .ok (.num v) ∧
    formulaColumn t (.constant (.num v)) = .ok (List.replicate t.nrows v) :=
  ⟨rfl, rfl⟩

/-- C6: a Variable node whose name misses the bindings fails with
the unknown-variable error naming it, and one whose name is bound
returns the bound value. -/
theorem C6_variable_lookup (env : List (String × Value)) (id : String) :
    (env.lookup id = none →
      safe_eval_expr env (.name id) = .error (.unknownVariable id)) ∧
    (∀ v, env.lookup id = some v → safe_eval_expr env (.name id) = .ok v) := by
  constructor
  · intro h; simp only [safe_eval_expr, h]
  · intro v h; simp only [safe_eval_expr, h]

/-- Witness for C6 at concrete bindings: an absent name fails, a
bound column comes back unchanged. -/
theorem C6_variable_lookup_witness :
    safe_eval_expr [] (.name "foo") = .error (.unknownVariable "foo") ∧
    safe_eval_expr [("pop_boost", .series [PyNum.fin 1])] (.name "pop_boost")
      = .ok (.series [PyNum.fin 1]) :=
  ⟨(C6_variable_lookup [] "foo").1 rfl,
   (C6_variable_lookup [("pop_boost", .series [PyNum.fin 1])] "pop_boost").2
     (.series [PyNum.fin 1]) rfl⟩

/-- C7: the zero clamp is applied uniformly to both formula columns
as a separate step after evaluation and before ranking: in the
simulation result both score columns are the clamped evaluation
columns, both rank columns are computed from the clamped scores,
and every row where the raw (unclamped) evaluator output is
negative carries score zero. -/
theorem C7_clamp_uniform_postprocessing
    (t : Table) (fa fb : AstExpr) (ca cb : List PyNum) (res : SimResult)
    (ha : formulaColumn t fa = .ok ca)
    (hb : formulaColumn t fb = .ok cb)
    (hres : simulate t fa fb = .ok res) :
    res.score_a = clip_lower0 ca ∧
    res.score_b = clip_lower0 cb ∧
    res.rank_a = rank_first_desc (clip_lower0 ca) ∧
    res.rank_b = rank_first_desc (clip_lower0 cb) ∧
    (∀ i q, ca.get? i = some (.fin q) → q < 0 →
      res.score_a.get? i = some (.fin 0)) ∧
    (∀ i q, cb.get? i = some (.fin q) → q < 0 →
      res.score_b.get? i = some (.fin 0)) := by
  unfold formulaColumn at ha hb
  unfold simulate at hres
  cases hva : evaluate_formula t fa with
  | error e => rw [hva] at ha; simp [Except.bind] at ha
  | ok va =>
    rw [hva] at ha hres
    cases hvb : evaluate_formula t fb with
    | error e => rw [hvb] at hb; simp [Except.bind] at hb
    | ok vb =>
      rw [hvb] at hb hres
      simp only [Except.bind] at ha hb
      simp only [Bind.bind, Except.bind] at hres
      rw [ha, hb] at hres
      simp only [Except.ok.injEq] at hres
      subst hres
      refine ⟨rfl, rfl, rfl, rfl, ?_, ?_⟩
      · intro i q hq hneg
        rw [List.get?_eq_getElem?] at hq ⊢
        show (ca.map PyNum.clip0)[i]? = some (.fin 0)
        rw [List.getElem?_map, hq]
        simp [PyNum.clip0, max_eq_right hneg.le]
      · intro i q hq hneg
        rw [List.get?_eq_getElem?] at hq ⊢
        show (cb.map PyNum.clip0)[i]? = some (.fin 0)
        rw [List.getElem?_map, hq]
        simp [PyNum.clip0, max_eq_right hneg.le]

/-- A strict comparison never holds reflexively. -/
theorem PyNum.ltB_irrefl (x : PyNum) : x.ltB x = false := by
  cases x <;> simp [ltB, lt_irrefl]

/-- Strict comparisons are transitive. -/
theorem PyNum.ltB_trans {x y z : PyNum} (hxy : x.ltB y = true)
    (hyz : y.ltB z = true) : x.ltB z = true := by
  cases x <;> cases y <;> cases z <;> simp_all [ltB]
  linarith

/-- Two different values that are both not nan compare in one
direction or the other. -/
theorem PyNum.ltB_total {x y : PyNum} (hx : x.isNan = false)
    (hy : y.isNan = false) (hne : x ≠ y) :
    x.ltB y = true ∨ y.ltB x = true := by
  cases x <;> cases y <;> simp_all [ltB, isNan]

/-- A strict comparison that holds has non-nan operands. -/
theorem PyNum.ltB_not_nan {x y : PyNum} (h : x.ltB y = true) :
    x.isNan = false ∧ y.isNan = false := by
  cases x <;> cases y <;> simp_all [ltB, isNan]

/-- No position beats itself. -/
theorem beatsIdx_irrefl (s : List PyNum) (i : Fin s.length) :
    beatsIdx s i i = false := by
  simp [beatsIdx, PyNum.ltB_irrefl, lt_irrefl]

/-- The beats order is transitive. -/
theorem beatsIdx_trans {s : List PyNum} {k j i : Fin s.length}
    (h1 : beatsIdx s k j = true) (h2 : beatsIdx s j i = true) :
    beatsIdx s k i = true := by
  simp only [beatsIdx, Bool.and_eq_true, Bool.or_eq_true, beq_iff_eq,
    decide_eq_true_eq, Bool.not_eq_true'] at h1 h2 ⊢
  obtain ⟨hk, h1⟩ := h1
  obtain ⟨hj, h2⟩ := h2
  refine ⟨hk, ?_⟩
  rcases h1 with h1 | ⟨heq1, hlt1⟩ <;> rcases h2 with h2 | ⟨heq2, hlt2⟩
  · exact Or.inl (PyNum.ltB_trans h2 h1)
  · rw [heq2] at h1; exact Or.inl h1
  · rw [heq1]; exact Or.inl h2
  · exact Or.inr ⟨heq1.trans heq2, hlt1.trans hlt2⟩

/-- Between two distinct non-nan positions, one beats the other. -/
theorem beatsIdx_total {s : List PyNum} {i j : Fin s.length}
    (hi : (s.get i).isNan = false) (hj : (s.get j).isNan = false)
    (hne : i ≠ j) :
    beatsIdx s j i = true ∨ beatsIdx s i j = true := by
  simp only [beatsIdx, Bool.and_eq_true, Bool.or_eq_true, beq_iff_eq,
    decide_eq_true_eq, Bool.not_eq_true']
  by_cases heq : s.get j = s.get i
  · rcases Nat.lt_or_ge j.1 i.1 with h | h
    · exact Or.inl ⟨hj, Or.inr ⟨heq, h⟩⟩
    · refine Or.inr ⟨hi, Or.inr ⟨heq.symm, ?_⟩⟩
      exact lt_of_le_of_ne h (fun hc => hne (Fin.val_injective hc))
  · rcases PyNum.ltB_total hi hj (fun hc => heq (hc.symm)) with h | h
    · exact Or.inl ⟨hj, Or.inl h⟩
    · exact Or.inr ⟨hi, Or.inl h⟩

/-- A beaten position gets the strictly larger numeric rank. -/
theorem rankNat_lt_of_beats {s : List PyNum} {j i : Fin s.length}
    (h : beatsIdx s j i = true) : rankNat s j < rankNat s i := by
  unfold rankNat
  have hsub : (Finset.univ.filter (fun k : Fin s.length => beatsIdx s k j = true))
      ⊂ (Finset.univ.filter (fun k : Fin s.length => beatsIdx s k i = true)) := by
    rw [Finset.ssubset_def]
    constructor
    · intro k hk
      simp only [Finset.mem_filter, Finset.mem_univ, true_and] at hk ⊢
      exact beatsIdx_trans hk h
    · intro hsup
      have hji : j ∈ Finset.univ.filter (fun k : Fin s.length => beatsIdx s k i = true) := by
        simp [h]
      have hjj := hsup hji
      simp [beatsIdx_irrefl] at hjj
  have := Finset.card_lt_card hsub
  omega

/-- Every numeric rank is at least one. -/
theorem rankNat_pos (s : List PyNum) (i : Fin s.length) : 1 ≤ rankNat s i :=
  Nat.le_add_right 1 _

/-- Every numeric rank is at most the number of rows. -/
theorem rankNat_le_length (s : List PyNum) (i : Fin s.length) :
    rankNat s i ≤ s.length := by
  unfold rankNat
  have hsub : (Finset.univ.filter (fun k : Fin s.length => beatsIdx s k i = true))
      ⊆ Finset.univ.erase i := by
    intro k hk
    simp only [Finset.mem_filter, Finset.mem_univ, true_and] at hk
    simp only [Finset.mem_erase, Finset.mem_univ, and_true]
    intro hc
    rw [hc] at hk
    rw [beatsIdx_irrefl] at hk
    cases hk
  have h1 := Finset.card_le_card hsub
  have h2 : (Finset.univ.erase i).card = s.length - 1 := by
    rw [Finset.card_erase_of_mem (Finset.mem_univ i), Finset.card_univ,
      Fintype.card_fin]
  have h3 : 0 < s.length := i.pos
  omega

/-- Two distinct non-nan positions get distinct numeric ranks. -/
theorem rankNat_ne {s : List PyNum} {i j : Fin s.length}
    (hi : (s.get i).isNan = false) (hj : (s.get j).isNan = false)
    (hne : i ≠ j) : rankNat s i ≠ rankNat s j := by
  rcases beatsIdx_total hi hj hne with h | h
  · exact (rankNat_lt_of_beats h).ne'
  · exact (rankNat_lt_of_beats h).ne

/-- When no score is nan, every rank between 1 and the number of
rows is taken by some position. -/
theorem rankNat_surjective (s : List PyNum)
    (hnn : ∀ i : Fin s.length, (s.get i).isNan = false)
    (k : ℕ) (h1 : 1 ≤ k) (h2 : k ≤ s.length) :
    ∃ i : Fin s.length, rankNat s i = k := by
  have hmem : ∀ i : Fin s.length, rankNat s i - 1 < s.length := by
    intro i
    have ha := rankNat_le_length s i
    have hb := rankNat_pos s i
    have hc : 0 < s.length := i.pos
    omega
  have hinj : Function.Injective
      (fun i : Fin s.length => (⟨rankNat s i - 1, hmem i⟩ : Fin s.length)) := by
    intro a b hab
    by_contra hne
    have hne' := rankNat_ne (hnn a) (hnn b) hne
    have ha := rankNat_pos s a
    have hb := rankNat_pos s b
    have := Fin.mk.injEq (rankNat s a - 1) (hmem a) (rankNat s b - 1) (hmem b)
    rw [this] at hab
    omega
  have hbij := Finite.injective_iff_bijective.mp hinj
  obtain ⟨i, hi⟩ := hbij.surjective ⟨k - 1, by omega⟩
  refine ⟨i, ?_⟩
  have := congrArg Fin.val hi
  simp only at this
  have := rankNat_pos s i
  omega

/-- First stability: among equal non-nan scores the earlier row
gets the smaller rank. -/
theorem rankNat_stable {s : List PyNum} {i j : Fin s.length}
    (hi : (s.get i).isNan = false) (heq : s.get i = s.get j)
    (hij : i.1 < j.1) : rankNat s i < rankNat s j := by
  apply rankNat_lt_of_beats
  simp only [beatsIdx, Bool.and_eq_true, Bool.or_eq_true, beq_iff_eq,
    decide_eq_true_eq, Bool.not_eq_true']
  exact ⟨hi, Or.inr ⟨heq, hij⟩⟩

/-- Descending order: a strictly larger score gets a strictly
smaller rank. -/
theorem rankNat_desc {s : List PyNum} {i j : Fin s.length}
    (h : (s.get j).ltB (s.get i) = true) : rankNat s i < rankNat s j := by
  apply rankNat_lt_of_beats
  simp only [beatsIdx, Bool.and_eq_true, Bool.or_eq_true, beq_iff_eq,
    decide_eq_true_eq, Bool.not_eq_true']
  exact ⟨(PyNum.ltB_not_nan h).2, Or.inl h⟩

/-- C8 counterexample: over the score vector [nan, 5] the ranking
step produces [nan, 1], which is neither of the two length-2 rank
vectors with ranks exactly 1..2 that the claim quantified over all
score vectors demands (pandas keeps nan ranks for nan scores). -/
theorem C8_counterexample_nan_scores :
    rank_first_desc [PyNum.nan, PyNum.fin 5] = [PyNum.nan, PyNum.fin 1] ∧
    ([PyNum.nan, PyNum.fin 1] : List PyNum) ≠ [PyNum.fin 1, PyNum.fin 2] ∧
    ([PyNum.nan, PyNum.fin 1] : List PyNum) ≠ [PyNum.fin 2, PyNum.fin 1] := by
  refine ⟨by decide, by decide, by decide⟩

/-- C8 amended: restricted to nan-free score vectors the claim
holds: ranks are the numeric first-stability descending ranks,
each between 1 and N, pairwise distinct, every value 1..N is
taken, equal scores rank in input order, larger scores rank ahead,
and the concrete vector [5, 5, 3] ranks [1, 2, 3]. -/
theorem C8_dense_rank_on_nan_free_scores (s : List PyNum)
    (hnn : ∀ i : Fin s.length, (s.get i).isNan = false) :
    rank_first_desc s
      = List.ofFn (fun i : Fin s.length => PyNum.fin (rankNat s i)) ∧
    (∀ i : Fin s.length, 1 ≤ rankNat s i ∧ rankNat s i ≤ s.length) ∧
    (∀ i j : Fin s.length, i ≠ j → rankNat s i ≠ rankNat s j) ∧
    (∀ k : ℕ, 1 ≤ k → k ≤ s.length → ∃ i : Fin s.length, rankNat s i = k) ∧
    (∀ i j : Fin s.length, s.get i = s.get j → i.1 < j.1 →
      rankNat s i < rankNat s j) ∧
    (∀ i j : Fin s.length, (s.get j).ltB (s.get i) = true →
      rankNat s i < rankNat s j) ∧
    rank_first_desc [PyNum.fin 5, PyNum.fin 5, PyNum.fin 3]
      = [PyNum.fin 1, PyNum.fin 2, PyNum.fin 3] := by
  refine ⟨?_, fun i => ⟨rankNat_pos s i, rankNat_le_length s i⟩,
    fun i j hne => rankNat_ne (hnn i) (hnn j) hne,
    rankNat_surjective s hnn,
    fun i j heq hij => rankNat_stable (hnn i) heq hij,
    fun i j h => rankNat_desc h, by decide⟩
  unfold rank_first_desc
  congr 1
  funext i
  rw [hnn i]
  simp

/-- Witness for C8 amended at the nan-free score vector [5, 5, 3]. -/
theorem C8_dense_rank_on_nan_free_scores_witness :
    (∀ i : Fin ([PyNum.fin 5, PyNum.fin 5, PyNum.fin 3] : List PyNum).length,
      (([PyNum.fin 5, PyNum.fin 5, PyNum.fin 3] : List PyNum).get i).isNan = false) ∧
    rank_first_desc [PyNum.fin 5, PyNum.fin 5, PyNum.fin 3]
      = [PyNum.fin 1, PyNum.fin 2, PyNum.fin 3] :=
  ⟨by decide,
   (C8_dense_rank_on_nan_free_scores [PyNum.fin 5, PyNum.fin 5, PyNum.fin 3]
      (by decide)).2.2.2.2.2.2⟩

/-- C5 counterexample: ranking the score vector [nan, 5], the nan
row receives rank nan, not a rank strictly greater than the rank 1
of the non-nan row: under the host comparison nan is not greater
than 1 (every comparison with nan is false), so nan scores do not
sort last by rank. -/
theorem C5_counterexample_nan_rank_not_greater :
    (rank_first_desc [PyNum.nan, PyNum.fin 5]).get? 0 = some PyNum.nan ∧
    (rank_first_desc [PyNum.nan, PyNum.fin 5]).get? 1 = some (PyNum.fin 1) ∧
    PyNum.ltB (PyNum.fin 1) PyNum.nan = false :=
  ⟨by decide, by decide, by decide⟩

/-- C5 amended: with the default na_option keep of pandas rank, a
row with nan score receives the rank nan (and is hence dropped by
any numeric top-k threshold and placed last by sort_values), while
every row with a non-nan score receives a numeric rank between 1
and the number of rows. -/
theorem C5_nan_scores_get_nan_ranks (s : List PyNum) (i : ℕ) (x : PyNum)
    (hx : s.get? i = some x) :
    (x.isNan = true → (rank_first_desc s).get? i = some PyNum.nan) ∧
    (x.isNan = false → ∃ k : ℕ,
      (rank_first_desc s).get? i = some (PyNum.fin k) ∧
      1 ≤ k ∧ k ≤ s.length) := by
  obtain ⟨hlen, hget⟩ := List.get?_eq_some.mp hx
  rw [List.get_eq_getElem] at hget
  constructor
  · intro hnan
    simp [rank_first_desc, List.get?_ofFn, List.ofFnNthVal, hlen, hget, hnan]
  · intro hnum
    refine ⟨rankNat s ⟨i, hlen⟩, ?_, rankNat_pos s ⟨i, hlen⟩,
      rankNat_le_length s ⟨i, hlen⟩⟩
    simp [rank_first_desc, List.get?_ofFn, List.ofFnNthVal, hlen, hget, hnum]

/-- Witness for C5 amended at the concrete score vector [nan, 5]:
the nan row receives rank nan. -/
theorem C5_nan_scores_get_nan_ranks_witness :
    (([PyNum.nan, PyNum.fin 5] : List PyNum).get? 0 = some PyNum.nan) ∧
    (rank_first_desc [PyNum.nan, PyNum.fin 5]).get? 0 = some PyNum.nan :=
  ⟨rfl,
   (C5_nan_scores_get_nan_ranks [PyNum.nan, PyNum.fin 5] 0 PyNum.nan rfl).1 rfl⟩

/-- Witness for C7 at a one-row table and the formula -1: the raw
column is [-1], the clamped score column is [0]. -/
theorem C7_clamp_uniform_postprocessing_witness :
    formulaColumn ⟨[PyNum.fin 10], [PyNum.fin 0], [PyNum.fin 0]⟩
      (.unaryOp .usub (.constant (.num (.fin 1)))) = .ok [PyNum.fin (-1)] ∧
    simulate ⟨[PyNum.fin 10], [PyNum.fin 0], [PyNum.fin 0]⟩
      (.unaryOp .usub (.constant (.num (.fin 1))))
      (.unaryOp .usub (.constant (.num (.fin 1))))
      = .ok ⟨[PyNum.fin 0], [PyNum.fin 0], [PyNum.fin 1], [PyNum.fin 1],
          [PyNum.fin 0]⟩ ∧
    ([PyNum.fin 0] : List PyNum).get? 0 = some (PyNum.fin 0) := by
  have h2 : clip_lower0 [PyNum.fin (-(1:ℚ))] = [PyNum.fin 0] := by decide
  have h3 : rank_first_desc [PyNum.fin 0] = [PyNum.fin 1] := by decide
  have h4 : zipWithPad PyNum.sub [PyNum.fin 1] [PyNum.fin 1] = [PyNum.fin 0] := by
    norm_num [zipWithPad, PyNum.sub, PyNum.add, PyNum.neg]
  have hsim : simulate ⟨[PyNum.fin 10], [PyNum.fin 0], [PyNum.fin 0]⟩
      (.unaryOp .usub (.constant (.num (.fin 1))))
      (.unaryOp .usub (.constant (.num (.fin 1))))
      = .ok ⟨[PyNum.fin 0], [PyNum.fin 0], [PyNum.fin 1], [PyNum.fin 1],
          [PyNum.fin 0]⟩ := by
    simp only [simulate, evaluate_formula, safe_eval_expr, constValue, applyNeg,
      PyNum.neg, toColumn, Table.nrows, bind, Except.bind]
    norm_num [h2, h3, h4]
  refine ⟨by decide, hsim, ?_⟩
  exact (C7_clamp_uniform_postprocessing
    ⟨[PyNum.fin 10], [PyNum.fin 0], [PyNum.fin 0]⟩
    (.unaryOp .usub (.constant (.num (.fin 1))))
    (.unaryOp .usub (.constant (.num (.fin 1))))
    [PyNum.fin (-1)] [PyNum.fin (-1)]
    ⟨[PyNum.fin 0], [PyNum.fin 0], [PyNum.fin 1], [PyNum.fin 1], [PyNum.fin 0]⟩
    (by decide) (by decide) hsim).2.2.2.2.1 0 (-1) (by decide)
    (by norm_num)

/-- C9: the parser implements the spec grammar with standard
precedence, left-associative binary operators and unary minus
binding tighter than binary operators, and the evaluator computes
accordingly: 2 + 3 * 4 parses as 2 + (3 * 4) and evaluates to 14,
(2 + 3) * 4 evaluates to 20, -2 + 3 parses as (-2) + 3 and
evaluates to 1, and 10 - 3 - 2 parses as (10 - 3) - 2 and
evaluates to 5. -/
theorem C9_precedence_and_associativity :
    (parseFormula "2 + 3 * 4"
      = .ok (.binOp .add (.constant (.num (.fin 2)))
          (.binOp .mult (.constant (.num (.fin 3)))
            (.constant (.num (.fin 4)))))) ∧
    (safe_eval_expr [] (.binOp .add (.constant (.num (.fin 2)))
          (.binOp .mult (.constant (.num (.fin 3)))
            (.constant (.num (.fin 4)))))
      = .ok (.num (.fin 14))) ∧
    (parseFormula "(2 + 3) * 4"
      = .ok (.binOp .mult
          (.binOp .add (.constant (.num (.fin 2))) (.constant (.num (.fin 3))))
          (.constant (.num (.fin 4))))) ∧
    (safe_eval_expr [] (.binOp .mult
          (.binOp .add (.constant (.num (.fin 2))) (.constant (.num (.fin 3))))
          (.constant (.num (.fin 4))))
      = .ok (.num (.fin 20))) ∧
    (parseFormula "-2 + 3"
      = .ok (.binOp .add (.unaryOp .usub (.constant (.num (.fin 2))))
          (.constant (.num (.fin 3))))) ∧
    (safe_eval_expr [] (.binOp .add (.unaryOp .usub (.constant (.num (.fin 2))))
          (.constant (.num (.fin 3))))
      = .ok (.num (.fin 1))) ∧
    (parseFormula "10 - 3 - 2"
      = .ok (.binOp .sub
          (.binOp .sub (.constant (.num (.fin 10))) (.constant (.num (.fin 3))))
          (.constant (.num (.fin 2))))) ∧
    (safe_eval_expr [] (.binOp .sub
          (.binOp .sub (.constant (.num (.fin 10))) (.constant (.num (.fin 3))))
          (.constant (.num (.fin 2))))
      = .ok (.num (.fin 5))) := by
  refine ⟨rfl, ?_, rfl, ?_, rfl, ?_, rfl, ?_⟩ <;>
    (simp only [safe_eval_expr, allowedOp, constValue, applyBin, scalarNumOp,
      applyNeg, PyNum.neg, bind, Except.bind, Except.map]
     norm_num [PyNum.add, PyNum.mul, PyNum.sub, PyNum.neg])

/-- Every heap extends itself. -/
theorem Heap.Extends.refl (h : Heap) : h.Extends h := ⟨[], by simp⟩

/-- Extension is transitive. -/
theorem Heap.Extends.trans {h3 h2 h1 : Heap}
    (ha : h3.Extends h2) (hb : h2.Extends h1) : h3.Extends h1 := by
  obtain ⟨e1, he1⟩ := ha
  obtain ⟨e2, he2⟩ := hb
  exact ⟨e2 ++ e1, by rw [he1, he2, List.append_assoc]⟩

/-- Allocation extends the heap. -/
theorem Heap.extends_alloc (h : Heap) (l : List PyNum) :
    (h.alloc l).Extends h := ⟨[l], rfl⟩

/-- Extension does not shrink the heap. -/
theorem Heap.Extends.size_le {h' h : Heap} (he : h'.Extends h) :
    h.size ≤ h'.size := by
  obtain ⟨ext, hext⟩ := he
  simp [Heap.size, hext]

/-- Extension preserves the contents of valid cells. -/
theorem Heap.Extends.getCell_eq {h' h : Heap} (he : h'.Extends h)
    {r : ℕ} (hr : r < h.size) : h'.getCell r = h.getCell r := by
  obtain ⟨ext, hext⟩ := he
  simp only [Heap.getCell, hext]
  exact List.getD_append _ _ _ _ hr

/-- The fresh cell of an allocation holds the allocated list. -/
theorem Heap.getCell_alloc_self (h : Heap) (l : List PyNum) :
    (h.alloc l).getCell h.size = l := by
  simp only [Heap.getCell, Heap.alloc, Heap.size]
  rw [List.getD_eq_getElem?_getD, List.getElem?_append_right (le_refl _)]
  simp

/-- Extension preserves validity of values. -/
theorem validV_mono {h' h : Heap} (he : h'.Extends h) {v : ValueH}
    (hv : validV h v = true) : validV h' v = true := by
  cases v with
  | ref r =>
      simp only [validV, decide_eq_true_eq] at hv ⊢
      exact lt_of_lt_of_le hv he.size_le
  | num x => rfl
  | str s => rfl

/-- Extension preserves validity of environments. -/
theorem validEnv_mono {h' h : Heap} (he : h'.Extends h)
    {env : List (String × ℕ)} (hv : validEnv h env = true) :
    validEnv h' env = true := by
  simp only [validEnv, List.all_eq_true, decide_eq_true_eq] at hv ⊢
  exact fun p hp => lt_of_lt_of_le (hv p hp) he.size_le

/-- Extension preserves the dereferenced value. -/
theorem derefV_mono {h' h : Heap} (he : h'.Extends h) {v : ValueH}
    (hv : validV h v = true) : derefV h' v = derefV h v := by
  cases v with
  | ref r =>
      simp only [validV, decide_eq_true_eq] at hv
      simp [derefV, he.getCell_eq hv]
  | num x => rfl
  | str s => rfl

/-- Extension preserves the dereferenced environment. -/
theorem derefEnv_mono {h' h : Heap} (he : h'.Extends h)
    {env : List (String × ℕ)} (hv : validEnv h env = true) :
    derefEnv h' env = derefEnv h env := by
  simp only [validEnv, List.all_eq_true, decide_eq_true_eq] at hv
  simp only [derefEnv]
  apply List.map_congr_left
  intro p hp
  rw [he.getCell_eq (hv p hp)]

/-- Looking a name up in the dereferenced environment dereferences
the looked-up cell. -/
theorem lookup_derefEnv (h : Heap) (env : List (String × ℕ)) (id : String) :
    (derefEnv h env).lookup id
      = (env.lookup id).map (fun r => Value.series (h.getCell r)) := by
  induction env with
  | nil => rfl
  | cons p rest ih =>
      obtain ⟨k, r⟩ := p
      simp only [derefEnv, List.map, List.lookup] at ih ⊢
      cases hik : id == k with
      | true => simp
      | false => simpa using ih

/-- A name bound in a valid environment is bound to a valid
cell. -/
theorem lookup_validEnv {h : Heap} {env : List (String × ℕ)}
    (hv : validEnv h env = true) {id : String} {r : ℕ}
    (hl : env.lookup id = some r) : r < h.size := by
  induction env with
  | nil => cases hl
  | cons p rest ih =>
      obtain ⟨k, r'⟩ := p
      simp only [validEnv, List.all_cons, Bool.and_eq_true,
        decide_eq_true_eq] at hv
      simp only [List.lookup] at hl
      cases hik : id == k with
      | true =>
          rw [hik] at hl
          simp only [Option.some.injEq] at hl
          exact hl ▸ hv.1
      | false =>
          rw [hik] at hl
          exact ih (by simp [validEnv, hv.2]) hl

/-- Materialising an operation result: the produced value reads
back as the operation result, the heap only grew, and the produced
value is valid. -/
theorem allocResult_spec (h : Heap) (val : Value) :
    derefV (allocResult h val).1 (allocResult h val).2 = val ∧
    (allocResult h val).1.Extends h ∧
    validV (allocResult h val).1 (allocResult h val).2 = true := by
  cases val with
  | num x => exact ⟨rfl, Heap.Extends.refl h, rfl⟩
  | str s => exact ⟨rfl, Heap.Extends.refl h, rfl⟩
  | series l =>
      refine ⟨?_, Heap.extends_alloc h l, ?_⟩
      · simp [derefV, allocResult, Heap.getCell_alloc_self]
      · simp [validV, allocResult, Heap.alloc, Heap.size]

/-- The heap walk simulates the pure walk: it fails exactly when
the pure evaluator fails with the same error, and on success it
only extends the heap and its result reads back as the pure
result. -/
theorem evalH_spec (env : List (String × ℕ)) :
    (e : AstExpr) → ∀ h : Heap, validEnv h env = true →
    (∀ err, safe_eval_expr_heap env e h = .error err →
      safe_eval_expr (derefEnv h env) e = .error err) ∧
    (∀ h' v, safe_eval_expr_heap env e h = .ok (h', v) →
      safe_eval_expr (derefEnv h env) e = .ok (derefV h' v) ∧
      h'.Extends h ∧ validV h' v = true)
  | .constant c, h, _ => by
      constructor
      · intro err herr
        cases herr
      · intro h' v hok
        cases c with
        | num x =>
            simp only [safe_eval_expr_heap, Except.ok.injEq, Prod.mk.injEq] at hok
            obtain ⟨hh, hv⟩ := hok
            subst hh; subst hv
            exact ⟨rfl, Heap.Extends.refl h, rfl⟩
        | str s =>
            simp only [safe_eval_expr_heap, Except.ok.injEq, Prod.mk.injEq] at hok
            obtain ⟨hh, hv⟩ := hok
            subst hh; subst hv
            exact ⟨rfl, Heap.Extends.refl h, rfl⟩
  | .name id, h, hv => by
      constructor
      · intro err herr
        simp only [safe_eval_expr_heap] at herr
        cases hlook : env.lookup id with
        | none =>
            rw [hlook] at herr
            simp only [Except.error.injEq] at herr
            simp [safe_eval_expr, lookup_derefEnv, hlook, herr]
        | some r => rw [hlook] at herr; cases herr
      · intro h' v hok
        simp only [safe_eval_expr_heap] at hok
        cases hlook : env.lookup id with
        | none => rw [hlook] at hok; cases hok
        | some r =>
            rw [hlook] at hok
            simp only [Except.ok.injEq, Prod.mk.injEq] at hok
            obtain ⟨hh, hvv⟩ := hok
            subst hh; subst hvv
            refine ⟨?_, Heap.Extends.refl h, ?_⟩
            · simp [safe_eval_expr, lookup_derefEnv, hlook, derefV]
            · simp [validV, lookup_validEnv hv hlook]
  | .binOp op l r, h, hv => by
      cases hop : allowedOp op with
      | none =>
          constructor
          · intro err herr
            simp only [safe_eval_expr_heap, hop] at herr
            simp only [Except.error.injEq] at herr
            simp [safe_eval_expr, hop, herr]
          · intro h' v hok
            simp only [safe_eval_expr_heap, hop] at hok
            cases hok
      | some o =>
          have purebin :
              safe_eval_expr (derefEnv h env) (.binOp op l r)
                = (safe_eval_expr (derefEnv h env) l).bind (fun a =>
                    (safe_eval_expr (derefEnv h env) r).bind (fun b =>
                      applyBin o a b)) := by
            simp [safe_eval_expr, hop, bind]
          have heapbin :
              safe_eval_expr_heap env (.binOp op l r) h
                = (safe_eval_expr_heap env l h).bind (fun p =>
                    (safe_eval_expr_heap env r p.1).bind (fun q =>
                      applyBinH q.1 o p.2 q.2)) := by
            simp only [safe_eval_expr_heap, hop]
            rfl
          cases hL : safe_eval_expr_heap env l h with
          | error e1 =>
              have hpl := ((evalH_spec env l h hv).1) e1 hL
              constructor
              · intro err herr
                rw [heapbin, hL] at herr
                simp only [Except.bind, Except.error.injEq] at herr
                rw [purebin, hpl, herr]
                rfl
              · intro h' v hok
                rw [heapbin, hL] at hok
                cases hok
          | ok p =>
              obtain ⟨h1, a⟩ := p
              obtain ⟨hpl, hext1, hva⟩ := ((evalH_spec env l h hv).2) h1 a hL
              have hv1 : validEnv h1 env = true := validEnv_mono hext1 hv
              cases hR : safe_eval_expr_heap env r h1 with
              | error e2 =>
                  have hpr := ((evalH_spec env r h1 hv1).1) e2 hR
                  rw [derefEnv_mono hext1 hv] at hpr
                  constructor
                  · intro err herr
                    rw [heapbin, hL] at herr
                    simp only [Except.bind] at herr
                    rw [hR] at herr
                    simp only [Except.error.injEq] at herr
                    rw [purebin, hpl, hpr, herr]
                    rfl
                  · intro h' v hok
                    rw [heapbin, hL] at hok
                    simp only [Except.bind] at hok
                    rw [hR] at hok
                    cases hok
              | ok q =>
                  obtain ⟨h2, b⟩ := q
                  obtain ⟨hpr, hext2, hvb⟩ := ((evalH_spec env r h1 hv1).2) h2 b hR
                  rw [derefEnv_mono hext1 hv] at hpr
                  have hda : derefV h2 a = derefV h1 a := derefV_mono hext2 hva
                  have happbin :
                      safe_eval_expr_heap env (.binOp op l r) h
                        = applyBinH h2 o a b := by
                    rw [heapbin, hL]
                    simp only [Except.bind]
                    rw [hR]
                  have hpure :
                      safe_eval_expr (derefEnv h env) (.binOp op l r)
                        = applyBin o (derefV h2 a) (derefV h2 b) := by
                    rw [purebin, hpl, hpr]
                    simp only [Except.bind]
                    rw [hda]
                  constructor
                  · intro err herr
                    rw [happbin] at herr
                    rw [hpure]
                    cases happ : applyBin o (derefV h2 a) (derefV h2 b) with
                    | error e3 =>
                        simp only [applyBinH, happ, Except.map,
                          Except.error.injEq] at herr
                        rw [herr]
                    | ok val =>
                        simp only [applyBinH, happ, Except.map] at herr
                        cases herr
                  · intro h' v hok
                    rw [happbin] at hok
                    rw [hpure]
                    cases happ : applyBin o (derefV h2 a) (derefV h2 b) with
                    | error e3 =>
                        simp only [applyBinH, happ, Except.map] at hok
                        cases hok
                    | ok val =>
                        simp only [applyBinH, happ, Except.map,
                          Except.ok.injEq] at hok
                        obtain ⟨hd, hx, hvr⟩ := allocResult_spec h2 val
                        rw [hok] at hd hx hvr
                        refine ⟨by rw [← hd], ?_, hvr⟩
                        exact (hx.trans hext2).trans hext1
  | .unaryOp uop x, h, hv => by
      cases uop with
      | usub =>
          have heapneg :
              safe_eval_expr_heap env (.unaryOp .usub x) h
                = (safe_eval_expr_heap env x h).bind (fun p =>
                    applyNegH p.1 p.2) := by
            simp only [safe_eval_expr_heap]
            rfl
          have pureneg :
              safe_eval_expr (derefEnv h env) (.unaryOp .usub x)
                = (safe_eval_expr (derefEnv h env) x).bind (fun v =>
                    applyNeg v) := by
            simp [safe_eval_expr, bind]
          cases hX : safe_eval_expr_heap env x h with
          | error e1 =>
              have hpx := ((evalH_spec env x h hv).1) e1 hX
              constructor
              · intro err herr
                rw [heapneg, hX] at herr
                simp only [Except.bind, Except.error.injEq] at herr
                rw [pureneg, hpx, herr]
                rfl
              · intro h' v hok
                rw [heapneg, hX] at hok
                cases hok
          | ok p =>
              obtain ⟨h1, a⟩ := p
              obtain ⟨hpx, hext1, hva⟩ := ((evalH_spec env x h hv).2) h1 a hX
              have hstep :
                  safe_eval_expr_heap env (.unaryOp .usub x) h
                    = applyNegH h1 a := by
                rw [heapneg, hX]
                rfl
              have hpure :
                  safe_eval_expr (derefEnv h env) (.unaryOp .usub x)
                    = applyNeg (derefV h1 a) := by
                rw [pureneg, hpx]
                rfl
              constructor
              · intro err herr
                rw [hstep] at herr
                rw [hpure]
                cases happ : applyNeg (derefV h1 a) with
                | error e2 =>
                    simp only [applyNegH, happ, Except.map,
                      Except.error.injEq] at herr
                    rw [herr]
                | ok val =>
                    simp only [applyNegH, happ, Except.map] at herr
                    cases herr
              · intro h' v hok
                rw [hstep] at hok
                rw [hpure]
                cases happ : applyNeg (derefV h1 a) with
                | error e2 =>
                    simp only [applyNegH, happ, Except.map] at hok
                    cases hok
                | ok val =>
                    simp only [applyNegH, happ, Except.map,
                      Except.ok.injEq] at hok
                    obtain ⟨hd, hx, hvr⟩ := allocResult_spec h1 val
                    rw [hok] at hd hx hvr
                    exact ⟨by rw [← hd], hx.trans hext1, hvr⟩
      | uadd =>
          exact ⟨fun err herr => by cases herr; rfl, fun h' v hok => by cases hok⟩
      | notOp =>
          exact ⟨fun err herr => by cases herr; rfl, fun h' v hok => by cases hok⟩
      | invert =>
          exact ⟨fun err herr => by cases herr; rfl, fun h' v hok => by cases hok⟩
  | .call f args, h, _ =>
      ⟨fun err herr => by cases herr; rfl, fun h' v hok => by cases hok⟩
  | .attribute v0 a, h, _ =>
      ⟨fun err herr => by cases herr; rfl, fun h' v hok => by cases hok⟩
  | .compare l0 cs, h, _ =>
      ⟨fun err herr => by cases herr; rfl, fun h' v hok => by cases hok⟩
  | .boolOp vs, h, _ =>
      ⟨fun err herr => by cases herr; rfl, fun h' v hok => by cases hok⟩

/-- Mapping the heap walk result through dereference gives exactly
the pure evaluation on the dereferenced bindings. -/
theorem evalH_agree (env : List (String × ℕ)) (e : AstExpr) (h : Heap)
    (hv : validEnv h env = true) :
    Except.map (fun p : Heap × ValueH => derefV p.1 p.2)
        (safe_eval_expr_heap env e h)
      = safe_eval_expr (derefEnv h env) e := by
  have hs := evalH_spec env e h hv
  cases hres : safe_eval_expr_heap env e h with
  | error err =>
      rw [hs.1 err hres]
      rfl
  | ok p =>
      obtain ⟨h', v⟩ := p
      rw [(hs.2 h' v hres).1]
      rfl

/-- C10: evaluation has no side effect on its inputs.  In the
heap-passing view of safe_eval_expr, a successful evaluation only
extends the heap: every Series cell that existed before holds the
same contents after, the bindings dereference to the same vectors,
and evaluating any second formula from the post-evaluation heap
produces the same (dereferenced) outcome as evaluating it from the
original heap, so bindings can be reused with identical results. -/
theorem C10_evaluation_is_pure (env : List (String × ℕ)) (e1 e2 : AstExpr)
    (h h1 : Heap) (v1 : ValueH)
    (hv : validEnv h env = true)
    (heval : safe_eval_expr_heap env e1 h = .ok (h1, v1)) :
    h1.Extends h ∧
    (∀ r, r < h.size → h1.getCell r = h.getCell r) ∧
    derefEnv h1 env = derefEnv h env ∧
    Except.map (fun p : Heap × ValueH => derefV p.1 p.2)
        (safe_eval_expr_heap env e2 h1)
      = Except.map (fun p : Heap × ValueH => derefV p.1 p.2)
        (safe_eval_expr_heap env e2 h) := by
  obtain ⟨-, hext, -⟩ := (evalH_spec env e1 h hv).2 h1 v1 heval
  refine ⟨hext, fun r hr => hext.getCell_eq hr, derefEnv_mono hext hv, ?_⟩
  rw [evalH_agree env e2 h1 (validEnv_mono hext hv),
    evalH_agree env e2 h hv, derefEnv_mono hext hv]

/-- Witness for C10 at a concrete heap: one bound vector, first
formula -x (which allocates a fresh cell), second formula x; the
original cell is untouched and the second evaluation is unchanged. -/
theorem C10_evaluation_is_pure_witness :
    validEnv ⟨[[PyNum.fin 1]]⟩ [("x", 0)] = true ∧
    safe_eval_expr_heap [("x", 0)] (.unaryOp .usub (.name "x")) ⟨[[PyNum.fin 1]]⟩
      = .ok (⟨[[PyNum.fin 1], [PyNum.fin (-1)]]⟩, .ref 1) ∧
    (Heap.Extends ⟨[[PyNum.fin 1], [PyNum.fin (-1)]]⟩ ⟨[[PyNum.fin 1]]⟩ ∧
     (∀ r, r < Heap.size ⟨[[PyNum.fin 1]]⟩ →
        Heap.getCell ⟨[[PyNum.fin 1], [PyNum.fin (-1)]]⟩ r
          = Heap.getCell ⟨[[PyNum.fin 1]]⟩ r) ∧
     derefEnv ⟨[[PyNum.fin 1], [PyNum.fin (-1)]]⟩ [("x", 0)]
        = derefEnv ⟨[[PyNum.fin 1]]⟩ [("x", 0)] ∧
     Except.map (fun p : Heap × ValueH => derefV p.1 p.2)
        (safe_eval_expr_heap [("x", 0)] (.name "x")
          ⟨[[PyNum.fin 1], [PyNum.fin (-1)]]⟩)
      = Except.map (fun p : Heap × ValueH => derefV p.1 p.2)
        (safe_eval_expr_heap [("x", 0)] (.name "x") ⟨[[PyNum.fin 1]]⟩)) :=
  ⟨rfl, rfl,
   C10_evaluation_is_pure [("x", 0)] (.unaryOp .usub (.name "x")) (.name "x")
     ⟨[[PyNum.fin 1]]⟩ ⟨[[PyNum.fin 1], [PyNum.fin (-1)]]⟩ (.ref 1) rfl rfl⟩
